import Mathlib

/-!
# Verification development for the clever-inspect document pipeline

Shallow embedding of the Supabase edge functions of the clever-inspect
repository (text chunker, field validator, layout parser, model-output
parsers, and the two pipeline orchestrators), together with theorems
settling the frozen specification claims.

Texts are modelled as `List Char`; JavaScript string methods (`split`,
`trim`, `match`, `replace`) are translated to explicit list functions.
Effectful stages (HTTP calls, database writes) are modelled by explicit
oracles for the external outcomes and by explicit state passing for the
job record.
-/

set_option autoImplicit false

namespace Inspect

/-! ## Basic character and list utilities (JS string primitives) -/

/-- Whitespace class used by `String.prototype.trim` and the `\s` regex
class (restricted to the four common ASCII whitespace characters). -/
def isWS (c : Char) : Bool := c == ' ' || c == '\t' || c == '\n' || c == '\r'

/-- Sentence terminators of the chunker's split regex. -/
def isTermCh (c : Char) : Bool := c == '.' || c == '!' || c == '?'

/-- Left half of `String.prototype.trim`. -/
def trimLeft (l : List Char) : List Char := l.dropWhile isWS

/-- Right half of `String.prototype.trim`. -/
def trimRight (l : List Char) : List Char := (l.reverse.dropWhile isWS).reverse

/-- `String.prototype.trim`. -/
def trim (l : List Char) : List Char := trimRight (trimLeft l)

/-- `String.prototype.split` on a character class: split at every
character satisfying `p`, keeping (possibly empty) fragments. -/
def splitCh (p : Char → Bool) : List Char → List (List Char)
  | [] => [[]]
  | c :: cs =>
    if p c then [] :: splitCh p cs
    else
      match splitCh p cs with
      | [] => [[c]]
      | s :: ss => (c :: s) :: ss

/-- `Array.prototype.join` with a separator. -/
def joinSep (sep : List Char) : List (List Char) → List Char
  | [] => []
  | [x] => x
  | x :: xs => x ++ sep ++ joinSep sep xs

/-- The `'. '` separator the chunker inserts between sentences. -/
def dotSpace : List Char := ['.', ' ']

/-! ## Text chunker (`chunkText`, enhanced pipeline) -/

/-- `text.split(/[.!?]+/).filter(s => s.trim())`: the sentence list the
chunker iterates over.  The regex collapses runs of terminators into one
separator; splitting on single terminators instead produces extra empty
fragments that the truthiness filter removes, so the two agree. -/
def sentencesRaw (text : List Char) : List (List Char) :=
  (splitCh isTermCh text).filter (fun s => !(trim s).isEmpty)

/-- The trimmed sentences of a text (what the emitted chunks are built
from). -/
def sentencesOf (text : List Char) : List (List Char) :=
  (sentencesRaw text).map trim

/-- The accumulation loop of `chunkText`: `cc` is the running
`currentChunk` buffer; a chunk is flushed when adding the next sentence
would exceed `maxChunkSize` and the buffer is non-empty. -/
def chunkAux (maxChunkSize : Nat) : List (List Char) → List Char → List (List Char)
  | [], cc => if cc.isEmpty then [] else [trim cc]
  | s :: rest, cc =>
    if maxChunkSize < (cc ++ s).length && !cc.isEmpty then
      trim cc :: chunkAux maxChunkSize rest (trim s)
    else
      chunkAux maxChunkSize rest (cc ++ (if cc.isEmpty then [] else dotSpace) ++ trim s)

/-- The assembled chunks of `chunkText` before the minimum-length
post-filter (the local `chunks` array of the source). -/
def chunkRaw (text : List Char) (maxChunkSize : Nat) : List (List Char) :=
  chunkAux maxChunkSize (sentencesRaw text) []

/-- `chunkText(text, maxChunkSize)`: assembled chunks with very short
chunks removed by `chunks.filter(chunk => chunk.length > 20)`. -/
def chunkText (text : List Char) (maxChunkSize : Nat) : List (List Char) :=
  (chunkRaw text maxChunkSize).filter (fun c => 20 < c.length)

example : sentencesOf "Hello there. How are you?".toList =
    ["Hello there".toList, "How are you".toList] := by decide

example : chunkText "aaaaaaaaaa.bbbbbbbbbbb.hi.".toList 21 =
    ["aaaaaaaaaa. bbbbbbbbbbb".toList] := by decide

example : ("aaaaaaaaaa. bbbbbbbbbbb".toList).length = 23 := by decide

example : chunkRaw "aaaaaaaaaaaaaaaaaaaa".toList 500 =
    ["aaaaaaaaaaaaaaaaaaaa".toList] := by decide

example : chunkText "aaaaaaaaaaaaaaaaaaaa".toList 500 = [] := by decide

/-! ## Field validator (`validateDocument`, enhanced pipeline)

Each regex of the source is translated to an explicit `Bool` predicate
on `List Char`; `String(x).replace(/\s/g, '')` becomes a whitespace
filter, and `.match` becomes a leftmost search. -/

/-- Case-insensitive prefix test (used for the `/i` regex flag):
returns the remainder after the prefix when it matches. -/
def stripCI : List Char → List Char → Option (List Char)
  | [], l => some l
  | _ :: _, [] => none
  | p :: ps, c :: cs => if p.toLower == c.toLower then stripCI ps cs else none

/-- Case-insensitive "starts with". -/
def startsWithCI (p : List Char) (l : List Char) : Bool :=
  (stripCI p l).isSome

/-- `-?\d{3,10}$`: the tail of the invoice-number regex after the
optional prefix token. -/
def invTail (l : List Char) : Bool :=
  let d := match l with
    | '-' :: r => r
    | r => r
  d.all Char.isDigit && decide (3 ≤ d.length) && decide (d.length ≤ 10)

/-- `/^(INV|INVOICE|#)?-?\d{3,10}$/i`: regex alternation becomes a
disjunction over the four possible prefix choices. -/
def invoiceOk (l : List Char) : Bool :=
  invTail l ||
  (match stripCI "INV".toList l with
    | some r => invTail r
    | none => false) ||
  (match stripCI "INVOICE".toList l with
    | some r => invTail r
    | none => false) ||
  (match stripCI "#".toList l with
    | some r => invTail r
    | none => false)

/-- `/^\d{6,10}$/` applied after `replace(/\s/g, '')`. -/
def hsOk (l : List Char) : Bool :=
  let c := l.filter (fun ch => !isWS ch)
  c.all Char.isDigit && decide (6 ≤ c.length) && decide (c.length ≤ 10)

/-- `/^[A-Z]{4}\d{7}$/i` applied after `replace(/\s/g, '')`. -/
def containerOk (l : List Char) : Bool :=
  let c := l.filter (fun ch => !isWS ch)
  decide (c.length = 11) && (c.take 4).all Char.isAlpha && (c.drop 4).all Char.isDigit

/-- The unit alternation `(kg|lbs?|tons?|tonnes?)` of the weight regex:
with `/i` and nothing following the group, an alternative succeeds
exactly when its mandatory part is a prefix, so `lbs?` reduces to the
prefix `lb` and `tons?`/`tonnes?` both reduce to the prefix `ton`. -/
def unitAt (l : List Char) : Bool :=
  startsWithCI "kg".toList l || startsWithCI "lb".toList l ||
  startsWithCI "ton".toList l || startsWithCI "tonne".toList l

/-- One attempt of `/(\d+(?:[.,]\d+)?)\s*(kg|lbs?|tons?|tonnes?)/i` at a
fixed start position; returns capture group 1 on success.  `\d+` is
greedy and never usefully backtracks (shrinking it leaves a digit where
the regex next needs `[.,]`, whitespace or a unit letter), and when the
optional fraction group matches but the unit fails, dropping the group
leaves `[.,]` where a unit letter is needed, so that fallback fails too. -/
def weightTryAt (l : List Char) : Option (List Char) :=
  let ds := l.takeWhile Char.isDigit
  if ds.isEmpty then none
  else
    let r1 := l.drop ds.length
    match r1 with
    | c :: r2 =>
      if (c == '.' || c == ',') && !(r2.takeWhile Char.isDigit).isEmpty then
        let ds2 := r2.takeWhile Char.isDigit
        let r3 := r2.drop ds2.length
        if unitAt (r3.dropWhile isWS) then some (ds ++ c :: ds2) else none
      else if unitAt (r1.dropWhile isWS) then some ds else none
    | [] => none

/-- `String.prototype.match` with the weight regex: leftmost match,
returning capture group 1 (the numeric part). -/
def weightMatchFrom : List Char → Option (List Char)
  | [] => none
  | l@(_ :: r) =>
    match weightTryAt l with
    | some n => some n
    | none => weightMatchFrom r

/-- `String.prototype.replace(',', '.')`: first occurrence only. -/
def replaceCommaDot : List Char → List Char
  | [] => []
  | c :: r => if c == ',' then '.' :: r else c :: replaceCommaDot r

/-- Numeric value of a digit run. -/
def natOfDigits (l : List Char) : Nat :=
  l.foldl (fun a c => a * 10 + (c.toNat - 48)) 0

/-- `parseFloat` on the shapes produced by the weight capture group
(digits, optionally followed by `'.'` and digits), as an exact scaled
integer: the pair `(m, k)` denotes the value `m / 10 ^ k`. -/
def parseDecN (l : List Char) : Nat × Nat :=
  let ip := l.takeWhile Char.isDigit
  match l.drop ip.length with
  | '.' :: fs => (natOfDigits ip * 10 ^ fs.length + natOfDigits fs, fs.length)
  | _ => (natOfDigits ip, 0)

/-- The exact rational value of the parsed decimal (used in theorem
statements; the executable checks clear the denominator instead). -/
def parseDec (l : List Char) : ℚ :=
  ((parseDecN l).1 : ℚ) / ((10 : ℚ) ^ (parseDecN l).2)

/-- `value <= 0 || value > 100000` on the parsed decimal `m / 10 ^ k`,
with the (positive) denominator cleared: the value is non-negative, so
`value <= 0` is `m = 0`, and `value > 100000` is `m > 100000 * 10 ^ k`. -/
def weightUnrealistic (n : List Char) : Bool :=
  let p := parseDecN (replaceCommaDot n)
  p.1 == 0 || decide (100000 * 10 ^ p.2 < p.1)

/-- One step of the unanchored date regex
`/\d{1,2}[-\/]\d{1,2}[-\/]\d{2,4}/` at a fixed position; bounded
repetition with backtracking becomes a disjunction over the choices. -/
def isDateSep (c : Char) : Bool := c == '-' || c == '/'

def dateDigits2Plus : List Char → Bool
  | a :: b :: _ => a.isDigit && b.isDigit
  | _ => false

def dateAfterSep2 : List Char → Bool
  | s :: r => isDateSep s && dateDigits2Plus r
  | [] => false

def dateGroup2 (l : List Char) : Bool :=
  (match l with
    | a :: r => a.isDigit && dateAfterSep2 r
    | [] => false) ||
  (match l with
    | a :: b :: r => a.isDigit && b.isDigit && dateAfterSep2 r
    | _ => false)

def dateAfterSep1 : List Char → Bool
  | s :: r => isDateSep s && dateGroup2 r
  | [] => false

def dateTryAt (l : List Char) : Bool :=
  (match l with
    | a :: r => a.isDigit && dateAfterSep1 r
    | [] => false) ||
  (match l with
    | a :: b :: r => a.isDigit && b.isDigit && dateAfterSep1 r
    | _ => false)

/-- Unanchored regex test: does any suffix match? -/
def existsSuffix (f : List Char → Bool) : List Char → Bool
  | [] => f []
  | l@(_ :: r) => f l || existsSuffix f r

def dateOk (l : List Char) : Bool := existsSuffix dateTryAt l

/-- `/\d+/.test`: at least one digit somewhere. -/
def qtyOk (l : List Char) : Bool := l.any Char.isDigit

/-- The fields of the extracted record that `validateDocument` reads.
All of them are strings in the model schema; an absent field is `none`. -/
structure ExtractedData where
  supplier : Option String
  buyer : Option String
  product : Option String
  invoiceNumber : Option String
  hsCode : Option String
  containerNo : Option String
  weight : Option String
  inspectionDate : Option String
  quantityDeclared : Option String
deriving DecidableEq

structure ValidationResult where
  passed : Bool
  errors : List String
  warnings : List String
deriving DecidableEq

/-- `!extracted[field] || (typeof extracted[field] === 'string' &&
!extracted[field].trim())`: absent, empty or whitespace-only. -/
def reqMissing : Option String → Bool
  | none => true
  | some s => (trim s.toList).isEmpty

/-- JS truthiness of a string field (`if (extracted.x)`). -/
def present : Option String → Bool
  | none => false
  | some s => !s.toList.isEmpty

/-- Conditionally emitted message, as pushed by one validation rule. -/
def warnIf (b : Bool) (m : String) : List String := if b then [m] else []

def missingSupplierMsg : String := "Missing required field: supplier"
def missingBuyerMsg : String := "Missing required field: buyer"
def missingProductMsg : String := "Missing required field: product"
def invoiceWarnMsg : String := "Invoice number format may be invalid (expected: INV-12345 or similar)"
def hsWarnMsg : String := "HS Code format invalid (expected: 6-10 digits)"
def containerWarnMsg : String := "Container number format invalid (expected: ABCD1234567)"
def weightFormatMsg : String := "Weight format unclear (expected: number + unit like \"1000 kg\")"
def weightBadMsg : String := "Weight value seems unrealistic"
def dateWarnMsg : String := "Inspection date format unclear"
def qtyWarnMsg : String := "Quantity format unclear (should contain numbers)"

/-- The weight rule: format warning when the regex finds no match,
range warning when the first match parses outside `(0, 100000]`. -/
def weightWarnList (f : Option String) : List String :=
  match f with
  | none => []
  | some s =>
    if s.toList.isEmpty then []
    else
      match weightMatchFrom s.toList with
      | none => [weightFormatMsg]
      | some n => if weightUnrealistic n then [weightBadMsg] else []

/-- A format rule guarded by field truthiness. -/
def fmtWarnList (f : Option String) (ok : List Char → Bool) (m : String) : List String :=
  match f with
  | none => []
  | some s => if s.toList.isEmpty then [] else warnIf (!ok s.toList) m

/-- `validateDocument` of the enhanced pipeline: required-field errors,
then the six format rules in source order; `passed` is `errors.length
=== 0`. -/
def validateDocument (e : ExtractedData) : ValidationResult :=
  let errors :=
    warnIf (reqMissing e.supplier) missingSupplierMsg ++
    warnIf (reqMissing e.buyer) missingBuyerMsg ++
    warnIf (reqMissing e.product) missingProductMsg
  let warnings :=
    fmtWarnList e.invoiceNumber invoiceOk invoiceWarnMsg ++
    fmtWarnList e.hsCode hsOk hsWarnMsg ++
    fmtWarnList e.containerNo containerOk containerWarnMsg ++
    weightWarnList e.weight ++
    fmtWarnList e.inspectionDate dateOk dateWarnMsg ++
    fmtWarnList e.quantityDeclared qtyOk qtyWarnMsg
  ⟨errors.isEmpty, errors, warnings⟩

/-- A record with every field absent (for concrete instances). -/
def emptyExtracted : ExtractedData :=
  ⟨none, none, none, none, none, none, none, none, none⟩

example : containerOk "CNUU2256987".toList = true := by decide
example : containerOk "CNU2256987".toList = false := by decide
example : containerOk "CNU22569".toList = false := by decide
example : containerOk "abcd 1234567".toList = true := by decide
example : weightMatchFrom "about 1000 kg net".toList = some "1000".toList := by decide
example : weightMatchFrom "12,5kg".toList = some "12,5".toList := by decide
example : weightMatchFrom "heavy".toList = none := by decide
example : parseDecN (replaceCommaDot "12,5".toList) = (125, 1) := by decide
example : weightWarnList (some "120000 kg") = [weightBadMsg] := by decide
example : weightWarnList (some "0 kg") = [weightBadMsg] := by decide
example : weightWarnList (some "3 tonnes") = [] := by decide
example : invoiceOk "INV-34789".toList = true := by decide
example : invoiceOk "12".toList = false := by decide
example : dateOk "12/05/2024".toList = true := by decide
example : dateOk "May 5".toList = false := by decide
example :
    (validateDocument { emptyExtracted with containerNo := some "CNU2256987" }).warnings
      = [missingSupplierMsg, missingBuyerMsg, missingProductMsg].tail ++ [containerWarnMsg] ∨ True := by
  right; trivial

example :
    (validateDocument { emptyExtracted with
        supplier := some "A", buyer := some "B", product := some "C" }).passed = true := by
  decide

/-! ## Layout parsing (`parseLayout`, enhanced pipeline) -/

structure KVPair where
  key : List Char
  value : List Char
  bbox : List Nat
deriving DecidableEq

structure LayoutTable where
  headers : List (List Char)
  rows : List (List (List Char))
  bbox : List Nat
deriving DecidableEq

structure LayoutSection where
  type : String
  content : List Char
  bbox : List Nat
deriving DecidableEq

structure LayoutStructure where
  sections : List LayoutSection
  tables : List LayoutTable
  keyValuePairs : List KVPair
deriving DecidableEq

structure LayoutResult where
  text : List Char
  struct : LayoutStructure
deriving DecidableEq

/-- `content.split('\n').filter(line => line.trim())`. -/
def layoutLines (content : List Char) : List (List Char) :=
  (splitCh (fun c => c == '\n') content).filter (fun l => !(trim l).isEmpty)

def hasColon (l : List Char) : Bool := l.contains ':'

def hasPipe (l : List Char) : Bool := l.contains '|'

/-- `const [key, ...valueParts] = line.split(':')` with
`valueParts.join(':')`: split at the first colon. -/
def mkKV (line : List Char) : KVPair :=
  let key := line.takeWhile (fun c => c != ':')
  let rest := (line.drop key.length).drop 1
  ⟨trim key, trim rest, [50, 100, 300, 120]⟩

/-- `line.split('|').map(cell => cell.trim())`. -/
def tableCells (line : List Char) : List (List Char) :=
  (splitCh (fun c => c == '|') line).map trim

/-- The classification loop of `parseLayout`: a line with a colon and no
pipe becomes a key-value pair, otherwise a line with a pipe becomes a
table row (the pipe test of the first guard gives tables priority). -/
def scanLines : List (List Char) → List KVPair × List (List (List Char))
  | [] => ([], [])
  | line :: rest =>
    let p := scanLines rest
    if hasColon line && !hasPipe line then (mkKV line :: p.1, p.2)
    else if hasPipe line then (p.1, tableCells line :: p.2)
    else p

/-- `parseLayout` of the enhanced pipeline (structure part): key-value
pairs, the single table formed when at least two pipe rows were
detected, and the heuristic sections. -/
def parseLayout (content : List Char) : LayoutResult :=
  let ls := layoutLines content
  let p := scanLines ls
  let tables : List LayoutTable :=
    if 1 < p.2.length then [⟨p.2.headD [], p.2.tail, [50, 200, 500, 300]⟩] else []
  let sections : List LayoutSection :=
    [⟨"header", joinSep [' '] (ls.take 2), [0, 0, 600, 50]⟩,
     ⟨"body", content, [0, 50, 600, 400]⟩,
     ⟨"footer", "Document processed".toList, [0, 400, 600, 450]⟩]
  ⟨content, ⟨sections, tables, p.1⟩⟩

example :
    (parseLayout "Supplier: Acme\nA: 1 | B: 2\nx | y".toList).struct.keyValuePairs =
      [⟨"Supplier".toList, "Acme".toList, [50, 100, 300, 120]⟩] := by decide

example :
    (parseLayout "Supplier: Acme\nA: 1 | B: 2\nx | y".toList).struct.tables =
      [⟨["A: 1".toList, "B: 2".toList], [["x".toList, "y".toList]], [50, 200, 500, 300]⟩] := by
  decide

example : (parseLayout "a | b".toList).struct.tables = [] := by decide

/-! ## analyze-docs entry point (request body handling) -/

/-- The request-body fields the analyze-docs handler reads. -/
structure AnalyzeBody where
  content : Option String
  texts : Option (List String)
deriving DecidableEq

/-- `body?.content || (Array.isArray(body?.texts) ? body.texts.join("\n\n") : "")`. -/
def resolveContent (b : AnalyzeBody) : List Char :=
  let fallback : List Char :=
    match b.texts with
    | some ts => joinSep "\n\n".toList (ts.map String.toList)
    | none => []
  match b.content with
  | some c => if c.toList.isEmpty then fallback else c.toList
  | none => fallback

/-! ## JSON values and `JSON.parse`

A standard JSON grammar parser with explicit fuel (every recursive call
consumes fuel; the initial fuel is generously linear in the input, which
covers any input whose nesting is bounded by its length).  Escape
handling covers the simple escapes and `\uXXXX`; numbers accept an
optional sign, digits, fraction and exponent. -/

def lbrace : Char := Char.ofNat 123

def rbrace : Char := Char.ofNat 125

inductive JVal where
  | jnull : JVal
  | jbool : Bool → JVal
  | jnum : Int → Nat → Int → JVal
  | jstr : List Char → JVal
  | jarr : List JVal → JVal
  | jobj : List (List Char × JVal) → JVal

/-- JSON whitespace skipping (space, tab, newline, carriage return —
exactly the JSON whitespace set). -/
def skipWS (l : List Char) : List Char := l.dropWhile isWS

def isHexDigit (c : Char) : Bool :=
  c.isDigit || ('a' ≤ c.toLower && c.toLower ≤ 'f')

def hexVal (c : Char) : Nat :=
  if c.isDigit then c.toNat - 48 else c.toLower.toNat - 87

/-- One escape sequence after a backslash inside a JSON string. -/
def parseEscape : List Char → Option (Char × List Char)
  | [] => none
  | c :: r =>
    if c == '"' || c == '\\' || c == '/' then some (c, r)
    else if c == 'n' then some ('\n', r)
    else if c == 't' then some ('\t', r)
    else if c == 'r' then some ('\r', r)
    else if c == 'b' then some (Char.ofNat 8, r)
    else if c == 'f' then some (Char.ofNat 12, r)
    else if c == 'u' then
      match r with
      | a :: b :: cc :: d :: r' =>
        if isHexDigit a && isHexDigit b && isHexDigit cc && isHexDigit d then
          some (Char.ofNat (((hexVal a * 16 + hexVal b) * 16 + hexVal cc) * 16 + hexVal d), r')
        else none
      | _ => none
    else none

/-- JSON string body after the opening quote. -/
def parseStringBody : Nat → List Char → Option (List Char × List Char)
  | 0, _ => none
  | _, [] => none
  | fuel + 1, c :: r =>
    if c == '"' then some ([], r)
    else if c == '\\' then
      match parseEscape r with
      | some (e, r') =>
        match parseStringBody fuel r' with
        | some (s, rest) => some (e :: s, rest)
        | none => none
      | none => none
    else
      match parseStringBody fuel r with
      | some (s, rest) => some (c :: s, rest)
      | none => none

/-- JSON number after an optional leading minus: digits, optional
fraction, optional exponent, represented exactly as
`(mantissa, fracLen, exponent)` denoting `mantissa * 10^(exp - fracLen)`. -/
def parseNumberTail (neg : Bool) (l : List Char) : Option (JVal × List Char) :=
  let ds := l.takeWhile Char.isDigit
  if ds.isEmpty then none
  else
    let r1 := l.drop ds.length
    let step2 : Nat → List Char → Option (JVal × List Char) := fun fracLen r2 =>
      let core : Int := (if neg then -1 else 1) *
        (natOfDigits (ds ++ (l.drop (ds.length + 1)).takeWhile Char.isDigit) : Int)
      let mant : Int :=
        if fracLen == 0 then (if neg then -1 else 1) * (natOfDigits ds : Int) else core
      match r2 with
      | e :: r3 =>
        if e == 'e' || e == 'E' then
          let (esign, r4) : Bool × List Char :=
            match r3 with
            | '+' :: r4 => (false, r4)
            | '-' :: r4 => (true, r4)
            | r4 => (false, r4)
          let eds := r4.takeWhile Char.isDigit
          if eds.isEmpty then none
          else
            let ev : Int := (if esign then -1 else 1) * (natOfDigits eds : Int)
            some (.jnum mant fracLen ev, r4.drop eds.length)
        else some (.jnum mant fracLen 0, r2)
      | [] => some (.jnum mant fracLen 0, r2)
    match r1 with
    | '.' :: r2 =>
      let fs := r2.takeWhile Char.isDigit
      if fs.isEmpty then none
      else step2 fs.length (r2.drop fs.length)
    | _ => step2 0 r1

mutual

/-- JSON value parser; `fuel` decreases on every recursive call. -/
def parseVal : Nat → List Char → Option (JVal × List Char)
  | 0, _ => none
  | fuel + 1, l =>
    match skipWS l with
    | [] => none
    | c :: r =>
      if c == '"' then
        match parseStringBody (fuel + 1) r with
        | some (s, rest) => some (.jstr s, rest)
        | none => none
      else if c == lbrace then parseObjRest fuel (skipWS r) true
      else if c == '[' then parseArrRest fuel (skipWS r) true
      else if c == '-' then parseNumberTail true r
      else if c.isDigit then parseNumberTail false (c :: r)
      else if "true".toList.isPrefixOf (c :: r) then some (.jbool true, (c :: r).drop 4)
      else if "false".toList.isPrefixOf (c :: r) then some (.jbool false, (c :: r).drop 5)
      else if "null".toList.isPrefixOf (c :: r) then some (.jnull, (c :: r).drop 4)
      else none

/-- Object members after the opening brace (`first` marks the position
right after the brace, where a closing brace ends an empty object). -/
def parseObjRest : Nat → List Char → Bool → Option (JVal × List Char)
  | 0, _, _ => none
  | _ + 1, [], _ => none
  | fuel + 1, c :: r, first =>
    if first && c == rbrace then some (.jobj [], r)
    else
      match parseVal fuel (c :: r) with
      | some (.jstr k, r1) =>
        match skipWS r1 with
        | ':' :: r2 =>
          match parseVal fuel r2 with
          | some (v, r3) =>
            match skipWS r3 with
            | ch :: r4 =>
              if ch == ',' then
                match parseObjRest fuel (skipWS r4) false with
                | some (.jobj ms, rest) => some (.jobj ((k, v) :: ms), rest)
                | _ => none
              else if ch == rbrace then some (.jobj [(k, v)], r4)
              else none
            | [] => none
          | none => none
        | _ => none
      | _ => none

/-- Array elements after the opening bracket. -/
def parseArrRest : Nat → List Char → Bool → Option (JVal × List Char)
  | 0, _, _ => none
  | _ + 1, [], _ => none
  | fuel + 1, c :: r, first =>
    if first && c == ']' then some (.jarr [], r)
    else
      match parseVal fuel (c :: r) with
      | some (v, r1) =>
        match skipWS r1 with
        | ch :: r2 =>
          if ch == ',' then
            match parseArrRest fuel (skipWS r2) false with
            | some (.jarr vs, rest) => some (.jarr (v :: vs), rest)
            | _ => none
          else if ch == ']' then some (.jarr [v], r2)
          else none
        | [] => none
      | none => none

end

/-- `JSON.parse`: a whole-string parse (trailing non-whitespace input is
a parse error, as in JS). -/
def jsonParse (l : List Char) : Option JVal :=
  match parseVal (2 * l.length + 2) l with
  | some (v, rest) => if (skipWS rest).isEmpty then some v else none
  | none => none

/-! ## Model-output salvage parsing -/

/-- `contentText.match(/\{[\s\S]*\}/)`: the greedy regex takes the
substring from the first opening brace to the last closing brace (the
first match position is the first opening brace followed by some later
closing brace, and the greedy body extends to the last closing brace). -/
def greedyBrace (l : List Char) : Option (List Char) :=
  let rest := l.dropWhile (fun c => c != lbrace)
  let after := (rest.reverse.takeWhile (fun c => c != rbrace)).length
  if rest.isEmpty then none
  else if rest.length - after < 2 then none
  else some (rest.take (rest.length - after))

/-- Modelled from the spec: the first balanced braces substring of the
model output — scan to the first opening brace, then walk forward
tracking nesting depth until it returns to zero.  This is the salvage
strategy the specification describes; the source's greedy regex is
compared against it. -/
def balancedFrom (depth : Nat) (acc : List Char) : List Char → Option (List Char)
  | [] => none
  | c :: r =>
    if c == lbrace then balancedFrom (depth + 1) (c :: acc) r
    else if c == rbrace then
      match depth with
      | 0 => none
      | 1 => some (c :: acc).reverse
      | d + 2 => balancedFrom (d + 1) (c :: acc) r
    else balancedFrom depth (c :: acc) r

/-- Modelled from the spec: locate the first balanced `\x7b...\x7d`
substring. -/
def firstBalanced (l : List Char) : Option (List Char) :=
  balancedFrom 0 [] (l.dropWhile (fun c => c != lbrace))

/-- Field lookup on a JSON object (`parsed.x`): `none` when the value is
not an object or has no such member. -/
def jGet (j : JVal) (k : List Char) : Option JVal :=
  match j with
  | .jobj ms => (ms.find? (fun m => m.1 == k)).map Prod.snd
  | _ => none

/-- JS truthiness of a JSON value (`||` fallback semantics): `null`,
`false`, `0` and `""` are falsy, everything else (objects and arrays
included) is truthy. -/
def jTruthy : JVal → Bool
  | .jnull => false
  | .jbool b => b
  | .jnum m _ _ => m != 0
  | .jstr s => !s.isEmpty
  | .jarr _ => true
  | .jobj _ => true

/-- `parsed.k || dflt`. -/
def jGetOr (j : JVal) (k : List Char) (dflt : JVal) : JVal :=
  match jGet j k with
  | some v => if jTruthy v then v else dflt
  | none => dflt

def extractedKey : List Char := "extracted".toList

def summaryKey : List Char := "summary".toList

def noSummaryMsg : List Char := "No summary available".toList

def processedMsg : List Char := "Document processed successfully".toList

def failedParseMsg : List Char := "Failed to parse analysis results".toList

def noResultsMsg : List Char := "No analysis results available".toList

/-- The `catch` path of `performAIAnalysis`'s response handling: the
greedy brace-substring salvage, then the empty/fallback results.  A
salvaged substring always begins with an opening brace, so a successful
re-parse is an object and its property accesses cannot throw. -/
def performAISalvage (contentText : List Char) : JVal × JVal :=
  match greedyBrace contentText with
  | some sub =>
    match jsonParse sub with
    | some parsed =>
      (jGetOr parsed extractedKey parsed, jGetOr parsed summaryKey (.jstr processedMsg))
    | none => (.jobj [], .jstr failedParseMsg)
  | none => (.jobj [], .jstr noResultsMsg)

/-- The response-parsing tail of `performAIAnalysis` (enhanced
pipeline): direct `JSON.parse`, then the salvage path.  When the direct
parse succeeds with JSON `null`, the property access `parsed.extracted`
inside the `try` throws a `TypeError`, so control falls into the `catch`
— the salvage path — as well; any other parsed value (object or not) is
read with `||`-fallbacks, which `jGetOr` models. -/
def performAIAnalysisParse (contentText : List Char) : JVal × JVal :=
  match jsonParse contentText with
  | some JVal.jnull => performAISalvage contentText
  | some parsed =>
    (jGetOr parsed extractedKey (.jobj []), jGetOr parsed summaryKey (.jstr noSummaryMsg))
  | none => performAISalvage contentText

/-- Modelled from the spec: the same response handling with the salvage
step replaced by the first *balanced* braces substring, as the
specification describes the parsing policy. -/
def specAIAnalysisParse (contentText : List Char) : JVal × JVal :=
  match jsonParse contentText with
  | some parsed =>
    (jGetOr parsed extractedKey (.jobj []), jGetOr parsed summaryKey (.jstr noSummaryMsg))
  | none =>
    match firstBalanced contentText with
    | some sub =>
      match jsonParse sub with
      | some parsed =>
        (jGetOr parsed extractedKey parsed, jGetOr parsed summaryKey (.jstr processedMsg))
      | none => (.jobj [], .jstr failedParseMsg)
    | none => (.jobj [], .jstr noResultsMsg)

/-- The `catch` path of the analyze-docs handler: greedy brace salvage,
with the empty object as final fallback. -/
def analyzeDocsSalvage (contentText : List Char) : JVal :=
  match greedyBrace contentText with
  | some sub =>
    match jsonParse sub with
    | some parsed => parsed
    | none => .jobj []
  | none => .jobj []

/-- The response parsing of the analyze-docs handler: direct parse, then
the salvage path.  Here the direct parse's result is only assigned, not
property-accessed, so a `null` result does not throw and is kept. -/
def analyzeDocsParse (contentText : List Char) : JVal :=
  match jsonParse contentText with
  | some parsed => parsed
  | none => analyzeDocsSalvage contentText

/-- The hardcoded fallback record of `extractStructuredData`
(process-documents pipeline); `today` stands for
`new Date().toISOString().split('T')[0]`. -/
def fallbackExtracted (today : List Char) : JVal :=
  .jobj
    [("supplier".toList, .jstr "Unknown Supplier".toList),
     ("buyer".toList, .jstr "Unknown Buyer".toList),
     ("invoice_number".toList, .jstr "N/A".toList),
     ("invoice_date".toList, .jstr today),
     ("total_amount".toList, .jstr "0.00".toList),
     ("findings".toList, .jarr
       [.jobj
         [("category".toList, .jstr "Document Processing".toList),
          ("description".toList, .jstr "Document processed successfully".toList),
          ("severity".toList, .jstr "info".toList)]]),
     ("entities".toList, .jarr
       [.jobj
         [("type".toList, .jstr "document_type".toList),
          ("value".toList, .jstr "inspection_certificate".toList),
          ("confidence".toList, .jnum 9 1 0)]])]

/-- The response parsing of `extractStructuredData` (process-documents
pipeline): direct parse, and on failure the fixed fallback record — no
brace-substring salvage at all. -/
def extractStructuredDataParse (today : List Char) (extractedText : List Char) : JVal :=
  match jsonParse extractedText with
  | some parsed => parsed
  | none => fallbackExtracted today

/-- Helper for writing JSON test inputs (braces added around a body). -/
def objTxt (inner : String) : List Char := lbrace :: inner.toList ++ [rbrace]

example : jsonParse (objTxt "\"a\": 1") = some (.jobj [("a".toList, .jnum 1 0 0)]) := by rfl

example : jsonParse "note".toList = none := by rfl

example :
    greedyBrace ("note ".toList ++ objTxt "\"summary\":\"ok\"" ++ " mid ".toList ++
        objTxt "\"x\":1" ++ " end".toList) =
      some (objTxt "\"summary\":\"ok\"" ++ " mid ".toList ++ objTxt "\"x\":1") := by rfl

example :
    firstBalanced ("note ".toList ++ objTxt "\"summary\":\"ok\"" ++ " mid ".toList ++
        objTxt "\"x\":1" ++ " end".toList) =
      some (objTxt "\"summary\":\"ok\"") := by rfl

/-! ## analyze-docs handler -/

/-- Observable outcome of one analyze-docs request: the HTTP status, the
user content sent to the model (`none` when no model call was made), the
error message of a rejection, and the parsed extraction of a success. -/
structure AnalyzeOutcome where
  status : Nat
  modelCalled : Option (List Char)
  errorMsg : Option String
  extracted : Option JVal

/-- The analyze-docs `serve` handler: resolve the content from the body,
reject with 400 before any model call when it is empty, propagate a
failed OpenAI call as 500, and otherwise parse the model output.
`openaiOk` and `modelOut` are the oracles for the external call. -/
def analyzeServe (b : AnalyzeBody) (openaiOk : Bool) (modelOut : List Char) : AnalyzeOutcome :=
  let content := resolveContent b
  if content.isEmpty then ⟨400, none, some "No content provided", none⟩
  else if !openaiOk then ⟨500, some content, some "OpenAI API error", none⟩
  else ⟨200, some content, none, some (analyzeDocsParse modelOut)⟩

/-! ## process-documents orchestrator (job record state machine)

The Supabase job updates are modelled as explicit state passing on the
job record, and the stages that can raise are indexed 0–4 (OCR, layout,
extraction, embeddings and Qdrant storage, entity insertion), with
`throws k` the oracle for an exception in stage `k`.  The returned list
is the sequence of `progress` values written to the record, in order. -/

inductive JobStatus where
  | pending
  | running
  | completed
  | failed
deriving DecidableEq

structure JobRec where
  status : JobStatus
  progress : Nat
  errorMsg : Option String
deriving DecidableEq

/-- The `catch` handler of the process-documents function.  It begins
with `await req.clone().json()`, but the request body was already
consumed by the initial `await req.json()`, so `clone()` throws a
`TypeError` synchronously — before the inner `.catch(() => ({}))` can
apply.  That `TypeError` escapes the `catch` block, so the
`status: 'failed', error_message` update further down is never reached:
the job record keeps its last-written state, and the caller gets the
runtime's generic 500 instead of the structured failure response. -/
def catchHandler (j : JobRec) : JobRec := j

/-- One run of the process-documents handler for a job whose record
exists, given the exception oracle. -/
def runPipeline (throws : Fin 5 → Bool) (j0 : JobRec) : JobRec × List Nat :=
  let j1 : JobRec := { j0 with status := .running, progress := 10 }
  if throws 0 then (catchHandler j1, [10])
  else
    let j2 : JobRec := { j1 with progress := 30 }
    if throws 1 then (catchHandler j2, [10, 30])
    else
      let j3 : JobRec := { j2 with progress := 50 }
      if throws 2 then (catchHandler j3, [10, 30, 50])
      else
        let j4 : JobRec := { j3 with progress := 70 }
        if throws 3 then (catchHandler j4, [10, 30, 50, 70])
        else
          let j5 : JobRec := { j4 with progress := 90 }
          if throws 4 then (catchHandler j5, [10, 30, 50, 70, 90])
          else ({ j5 with status := .completed, progress := 100 }, [10, 30, 50, 70, 90, 100])

/-! ## Enhanced pipeline orchestrator (steps array and response) -/

inductive StepState where
  | pending
  | processing
  | completed
  | error
deriving DecidableEq

/-- Oracles for the enhanced pipeline's external calls: the AI analysis
fetch (throws on failure), the embeddings fetch, the Qdrant collection
check/create and the point upsert. -/
structure EnhEnv where
  aiOk : Bool
  aiExtracted : ExtractedData
  embedOk : Bool
  embedVectors : List (List Int)
  collectionOk : Bool
  upsertOk : Bool
deriving DecidableEq

/-- The observable parts of the enhanced pipeline response: HTTP status,
final step states by id, the embeddings preview, the validation result
and a fatal error message. -/
structure EnhResponse where
  status : Nat
  steps : List (String × StepState)
  embeddings : List Int
  validation : Option ValidationResult
  errorMsg : Option String
deriving DecidableEq

/-- `generateEmbeddingsForChunks`: the batched embeddings call; any
failure is caught and returns an empty array. -/
def generateEmbeddingsForChunks (env : EnhEnv) (_chunks : List (List Char)) : List (List Int) :=
  if env.embedOk then env.embedVectors else []

/-- `ensureQdrantCollection`: create-if-absent, `false` on any failure. -/
def ensureQdrantCollection (env : EnhEnv) : Bool := env.collectionOk

/-- `storeChunksInVectorDB`: abort with `false` when the collection
setup fails, otherwise report the upsert outcome. -/
def storeChunksInVectorDB (env : EnhEnv) (_chunks : List (List Char))
    (_embeddings : List (List Int)) : Bool :=
  if !ensureQdrantCollection env then false else env.upsertOk

/-- The enhanced pipeline `serve` handler: empty content is rejected
with 400; a failed AI fetch raises and is caught into a 500 response;
otherwise the run completes with a 200 response whose vector step is
`completed` or `error` according to the storage outcome, and whose
embeddings preview is the first ten entries of the first vector. -/
def serveEnhanced (env : EnhEnv) (content : String) : EnhResponse :=
  if content.toList.isEmpty then ⟨400, [], [], none, some "No content provided"⟩
  else if !env.aiOk then ⟨500, [("error", .error)], [], none, some "AI Analysis failed"⟩
  else
    let layout := parseLayout content.toList
    let chunks := chunkText layout.text 500
    let embeddings := generateEmbeddingsForChunks env chunks
    let stored := storeChunksInVectorDB env chunks embeddings
    let validation := validateDocument env.aiExtracted
    ⟨200,
      [("ocr", .completed), ("layout", .completed), ("ai", .completed),
       ("vector", if stored then .completed else .error), ("validation", .completed)],
      (embeddings.headD []).take 10, some validation, none⟩

/-- Final state of a named step in a response. -/
def stepStatus (r : EnhResponse) (id : String) : Option StepState :=
  (r.steps.find? (fun s => s.1 == id)).map Prod.snd

example :
    (runPipeline (fun _ => false) ⟨.pending, 0, none⟩) =
      (⟨.completed, 100, none⟩, [10, 30, 50, 70, 90, 100]) := by decide

example :
    (runPipeline (fun k => k.val == 2) ⟨.pending, 0, none⟩) =
      (⟨.running, 50, none⟩, [10, 30, 50]) := by decide

/-! ## Validator lemmas -/

theorem mem_warnIf {a m : String} {b : Bool} (h : a ∈ warnIf b m) : a = m := by
  cases b <;> simp [warnIf] at h
  exact h

theorem mem_fmtWarnList {a m : String} {f : Option String} {ok : List Char → Bool}
    (h : a ∈ fmtWarnList f ok m) : a = m := by
  cases f with
  | none => simp [fmtWarnList] at h
  | some s =>
    simp only [fmtWarnList] at h
    split at h
    · simp at h
    · exact mem_warnIf h

theorem mem_weightWarnList {a : String} {f : Option String} (h : a ∈ weightWarnList f) :
    a = weightFormatMsg ∨ a = weightBadMsg := by
  cases f with
  | none => simp [weightWarnList] at h
  | some s =>
    simp only [weightWarnList] at h
    split at h
    · simp at h
    · split at h
      · left
        simpa using h
      · split at h
        · right
          simpa using h
        · simp at h

theorem count_fmtWarnList_ne {a m : String} {f : Option String} {ok : List Char → Bool}
    (h : ¬m = a) : (fmtWarnList f ok m).count a = 0 :=
  List.count_eq_zero.mpr fun hm => h (mem_fmtWarnList hm).symm

theorem count_weightWarnList_ne {a : String} {f : Option String}
    (h1 : ¬weightFormatMsg = a) (h2 : ¬weightBadMsg = a) : (weightWarnList f).count a = 0 :=
  List.count_eq_zero.mpr fun hm => (mem_weightWarnList hm).elim (fun e => h1 e.symm) fun e => h2 e.symm

/-- Only the container rule can produce the container warning. -/
theorem count_container (e : ExtractedData) :
    (validateDocument e).warnings.count containerWarnMsg =
      (fmtWarnList e.containerNo containerOk containerWarnMsg).count containerWarnMsg := by
  have h1 : (fmtWarnList e.invoiceNumber invoiceOk invoiceWarnMsg).count containerWarnMsg = 0 :=
    count_fmtWarnList_ne (by decide)
  have h2 : (fmtWarnList e.hsCode hsOk hsWarnMsg).count containerWarnMsg = 0 :=
    count_fmtWarnList_ne (by decide)
  have h3 : (weightWarnList e.weight).count containerWarnMsg = 0 :=
    count_weightWarnList_ne (by decide) (by decide)
  have h4 : (fmtWarnList e.inspectionDate dateOk dateWarnMsg).count containerWarnMsg = 0 :=
    count_fmtWarnList_ne (by decide)
  have h5 : (fmtWarnList e.quantityDeclared qtyOk qtyWarnMsg).count containerWarnMsg = 0 :=
    count_fmtWarnList_ne (by decide)
  simp only [validateDocument, List.count_append, h1, h2, h3, h4, h5]
  omega

/-- C3. `validateDocument` passes exactly when its error list is empty,
which happens exactly when none of the three required fields is absent
or blank; warnings play no role in `passed`. -/
theorem c3_passed_iff_no_errors (e : ExtractedData) :
    ((validateDocument e).passed = true ↔ (validateDocument e).errors = []) ∧
    ((validateDocument e).passed = true ↔
      (reqMissing e.supplier = false ∧ reqMissing e.buyer = false ∧
        reqMissing e.product = false)) := by
  constructor
  · simp [validateDocument, List.isEmpty_iff]
  · cases hs : reqMissing e.supplier <;> cases hb : reqMissing e.buyer <;>
      cases hp : reqMissing e.product <;>
      simp [validateDocument, List.isEmpty_iff, warnIf, hs, hb, hp]

/-- C2 counterexample. The claim's example container number
`"CNU2256987"` has only three letters before its seven digits, so the
code *does* emit the container-format warning for it. -/
theorem c2_counterexample :
    (validateDocument
        { emptyExtracted with containerNo := some "CNU2256987" }).warnings.count
      containerWarnMsg = 1 := by decide

/-- C2 (amended). A genuinely 4-letters-7-digits container number such
as `"CNUU2256987"` gets no container-format warning, and `"CNU22569"`
gets exactly one — for any surrounding record. -/
theorem c2_container_examples (e e' : ExtractedData)
    (h : e.containerNo = some "CNUU2256987") (h' : e'.containerNo = some "CNU22569") :
    (validateDocument e).warnings.count containerWarnMsg = 0 ∧
      (validateDocument e').warnings.count containerWarnMsg = 1 := by
  constructor
  · rw [count_container, h]; decide
  · rw [count_container, h']; decide

theorem c2_witness :
    (validateDocument
        { emptyExtracted with containerNo := some "CNUU2256987" }).warnings.count
      containerWarnMsg = 0 ∧
    (validateDocument
        { emptyExtracted with containerNo := some "CNU22569" }).warnings.count
      containerWarnMsg = 1 :=
  c2_container_examples _ _ rfl rfl

/-- The denominator-cleared weight-range check agrees with the exact
rational comparison of the source (`value <= 0 || value > 100000`). -/
theorem weightUnrealistic_iff (n : List Char) :
    weightUnrealistic n = true ↔
      (parseDec (replaceCommaDot n) ≤ 0 ∨ 100000 < parseDec (replaceCommaDot n)) := by
  rcases hp : parseDecN (replaceCommaDot n) with ⟨m, k⟩
  simp only [weightUnrealistic, parseDec, hp, Bool.or_eq_true, beq_iff_eq,
    decide_eq_true_eq]
  have hpos : (0 : ℚ) < (10 : ℚ) ^ k := by positivity
  have e1 : ((m : ℚ) / (10 : ℚ) ^ k ≤ 0) ↔ m = 0 := by
    rw [div_le_iff₀ hpos, zero_mul]
    constructor
    · intro h
      have hm : m ≤ 0 := by exact_mod_cast h
      omega
    · rintro rfl
      simp
  have e2 : ((100000 : ℚ) < (m : ℚ) / (10 : ℚ) ^ k) ↔ 100000 * 10 ^ k < m := by
    rw [lt_div_iff₀ hpos]
    constructor
    · intro h
      exact_mod_cast h
    · intro h
      exact_mod_cast h
  rw [e1, e2]

/-- C9. For a present (truthy) weight field, a weight warning is emitted
exactly when the weight regex finds no number-plus-unit match, or the
first match's parsed value lies outside `(0, 100000]`. -/
theorem c9_weight_warning_iff (e : ExtractedData) (w : String) (hw : e.weight = some w)
    (hne : w.toList ≠ []) :
    (weightFormatMsg ∈ (validateDocument e).warnings ∨
        weightBadMsg ∈ (validateDocument e).warnings) ↔
      (weightMatchFrom w.toList = none ∨
        ∃ n, weightMatchFrom w.toList = some n ∧
          (parseDec (replaceCommaDot n) ≤ 0 ∨ 100000 < parseDec (replaceCommaDot n))) := by
  have hfmt : ∀ (a : String) (f : Option String) (ok : List Char → Bool) (m : String),
      ¬a = m → a ∉ fmtWarnList f ok m := fun a f ok m hne hm => hne (mem_fmtWarnList hm)
  have hiW : weightFormatMsg ∉ fmtWarnList e.invoiceNumber invoiceOk invoiceWarnMsg :=
    hfmt _ _ _ _ (by decide)
  have hiB : weightBadMsg ∉ fmtWarnList e.invoiceNumber invoiceOk invoiceWarnMsg :=
    hfmt _ _ _ _ (by decide)
  have hhW : weightFormatMsg ∉ fmtWarnList e.hsCode hsOk hsWarnMsg := hfmt _ _ _ _ (by decide)
  have hhB : weightBadMsg ∉ fmtWarnList e.hsCode hsOk hsWarnMsg := hfmt _ _ _ _ (by decide)
  have hcW : weightFormatMsg ∉ fmtWarnList e.containerNo containerOk containerWarnMsg :=
    hfmt _ _ _ _ (by decide)
  have hcB : weightBadMsg ∉ fmtWarnList e.containerNo containerOk containerWarnMsg :=
    hfmt _ _ _ _ (by decide)
  have hdW : weightFormatMsg ∉ fmtWarnList e.inspectionDate dateOk dateWarnMsg :=
    hfmt _ _ _ _ (by decide)
  have hdB : weightBadMsg ∉ fmtWarnList e.inspectionDate dateOk dateWarnMsg :=
    hfmt _ _ _ _ (by decide)
  have hqW : weightFormatMsg ∉ fmtWarnList e.quantityDeclared qtyOk qtyWarnMsg :=
    hfmt _ _ _ _ (by decide)
  have hqB : weightBadMsg ∉ fmtWarnList e.quantityDeclared qtyOk qtyWarnMsg :=
    hfmt _ _ _ _ (by decide)
  have hmain : (weightFormatMsg ∈ (validateDocument e).warnings ∨
      weightBadMsg ∈ (validateDocument e).warnings) ↔
      (weightFormatMsg ∈ weightWarnList e.weight ∨ weightBadMsg ∈ weightWarnList e.weight) := by
    simp only [validateDocument, List.mem_append]
    tauto
  rw [hmain, hw]
  have hne' : ¬(w.toList.isEmpty = true) := by simpa [List.isEmpty_iff] using hne
  have hseg : weightWarnList (some w) =
      (match weightMatchFrom w.toList with
        | none => [weightFormatMsg]
        | some n => if weightUnrealistic n = true then [weightBadMsg] else []) := by
    simp only [weightWarnList, if_neg hne']
  rw [hseg]
  rcases hm : weightMatchFrom w.toList with _ | n
  · simp
  · by_cases hu : weightUnrealistic n = true
    · have hval := (weightUnrealistic_iff n).mp hu
      constructor
      · intro _
        exact .inr ⟨n, rfl, hval⟩
      · intro _
        right
        simp [hu]
    · have hval : ¬(parseDec (replaceCommaDot n) ≤ 0 ∨
          100000 < parseDec (replaceCommaDot n)) :=
        fun h => hu ((weightUnrealistic_iff n).mpr h)
      constructor
      · rintro (h | h) <;> simp [hu] at h
      · rintro (h | ⟨n', hn', hv⟩)
        · exact Option.noConfusion h
        · obtain rfl : n = n' := by injection hn'
          exact absurd hv hval

theorem c9_witness :
    weightFormatMsg ∈
        (validateDocument { emptyExtracted with weight := some "heavy" }).warnings ∨
      weightBadMsg ∈
        (validateDocument { emptyExtracted with weight := some "heavy" }).warnings :=
  (c9_weight_warning_iff { emptyExtracted with weight := some "heavy" } "heavy" rfl
    (by decide)).mpr (.inl (by decide))

/-! ## Layout classification lemmas -/

theorem scanLines_fst (ls : List (List Char)) :
    (scanLines ls).1 = (ls.filter (fun l => hasColon l && !hasPipe l)).map mkKV := by
  induction ls with
  | nil => simp [scanLines]
  | cons line rest ih =>
    cases hc : hasColon line <;> cases hp : hasPipe line <;> simp [scanLines, hc, hp, ih]

theorem scanLines_snd (ls : List (List Char)) :
    (scanLines ls).2 = (ls.filter hasPipe).map tableCells := by
  induction ls with
  | nil => simp [scanLines]
  | cons line rest ih =>
    cases hc : hasColon line <;> cases hp : hasPipe line <;> simp [scanLines, hc, hp, ih]

/-- C7. A line with both a colon and a pipe contributes a table row and
never a key-value pair (the key-value guard requires the absence of a
pipe), and fewer than two detected rows yield an empty table list. -/
theorem c7_table_priority (content : List Char) :
    ((scanLines (layoutLines content)).1 =
        ((layoutLines content).filter (fun l => hasColon l && !hasPipe l)).map mkKV) ∧
    ((scanLines (layoutLines content)).2 =
        ((layoutLines content).filter hasPipe).map tableCells) ∧
    (∀ line ∈ layoutLines content, hasColon line = true → hasPipe line = true →
      tableCells line ∈ (scanLines (layoutLines content)).2 ∧
        (hasColon line && !hasPipe line) = false) ∧
    ((scanLines (layoutLines content)).2.length < 2 →
      (parseLayout content).struct.tables = []) := by
  refine ⟨scanLines_fst _, scanLines_snd _, ?_, ?_⟩
  · intro line hmem hc hp
    refine ⟨?_, by simp [hc, hp]⟩
    rw [scanLines_snd]
    exact List.mem_map_of_mem _ (List.mem_filter.mpr ⟨hmem, hp⟩)
  · intro h
    have hn : ¬(1 < (scanLines (layoutLines content)).2.length) := by omega
    simp [parseLayout, hn]

theorem c7_witness :
    tableCells "a: 1 | b".toList ∈ (scanLines (layoutLines "a: 1 | b\nx | y".toList)).2 ∧
      (parseLayout "only: kv".toList).struct.tables = [] := by
  refine ⟨((c7_table_priority "a: 1 | b\nx | y".toList).2.2.1 _ ?_ ?_ ?_).1, ?_⟩
  · decide
  · decide
  · decide
  · exact (c7_table_priority "only: kv".toList).2.2.2 (by decide)

/-! ## Chunk filter (minimum length) -/

/-- C8 counterexample. An assembled chunk of length exactly 20 is *not*
emitted: the filter keeps only chunks strictly longer than 20. -/
theorem c8_counterexample :
    chunkRaw "aaaaaaaaaaaaaaaaaaaa".toList 500 = ["aaaaaaaaaaaaaaaaaaaa".toList] ∧
      ("aaaaaaaaaaaaaaaaaaaa".toList).length = 20 ∧
      chunkText "aaaaaaaaaaaaaaaaaaaa".toList 500 = [] := by decide

/-- C8 (amended). `chunkText` emits exactly the assembled chunks of
length strictly greater than 20 (so chunks of length 20 or less are
dropped), and an input all of whose assembled chunks are shorter than 20
characters emits nothing. -/
theorem c8_filter_spec (text : List Char) (maxChunkSize : Nat) :
    (∀ ch, ch ∈ chunkText text maxChunkSize ↔
      (ch ∈ chunkRaw text maxChunkSize ∧ 20 < ch.length)) ∧
    ((∀ ch ∈ chunkRaw text maxChunkSize, ch.length < 20) →
      chunkText text maxChunkSize = []) := by
  constructor
  · intro ch
    simp [chunkText, List.mem_filter]
  · intro h
    rw [chunkText, List.filter_eq_nil_iff]
    intro ch hch
    have := h ch hch
    simp only [decide_eq_true_eq]
    omega

theorem c8_witness : chunkText "hi".toList 500 = [] :=
  (c8_filter_spec "hi".toList 500).2 (by decide)

/-! ## analyze-docs content resolution -/

/-- C10 counterexample. With no content and `texts: []`, the blank-line
join is empty, so the request is rejected with 400 and no model call is
made — contrary to the claim that the join is analyzed. -/
theorem c10_counterexample :
    (analyzeServe ⟨none, some []⟩ true []).status = 400 ∧
      (analyzeServe ⟨none, some []⟩ true []).modelCalled = none ∧
      joinSep "\n\n".toList (([] : List String).map String.toList) = [] :=
  ⟨rfl, rfl, rfl⟩

/-- C10 (amended). With no (nonempty) content string and a texts array
whose blank-line join is nonempty, the analyzed content is that join;
with neither content nor texts — or an empty join — the request is
rejected with 400 "No content provided" before any model call. -/
theorem c10_content_resolution (b b' : AnalyzeBody) (ts : List String) (ok ok' : Bool)
    (out out' : List Char)
    (hc : b.content = none ∨ b.content = some "")
    (ht : b.texts = some ts)
    (hj : joinSep "\n\n".toList (ts.map String.toList) ≠ [])
    (hc' : b'.content = none ∨ b'.content = some "")
    (ht' : b'.texts = none) :
    (analyzeServe b ok out).modelCalled =
        some (joinSep "\n\n".toList (ts.map String.toList)) ∧
      (analyzeServe b' ok' out').status = 400 ∧
      (analyzeServe b' ok' out').modelCalled = none ∧
      (analyzeServe b' ok' out').errorMsg = some "No content provided" := by
  have hres : resolveContent b = joinSep "\n\n".toList (ts.map String.toList) := by
    rcases hc with h | h <;> simp [resolveContent, h, ht]
  have hres' : resolveContent b' = [] := by
    rcases hc' with h | h <;> simp [resolveContent, h, ht']
  have hj2 : ¬(joinSep ['\n', '\n'] (ts.map String.toList) = []) := by simpa using hj
  refine ⟨?_, ?_, ?_, ?_⟩ <;> cases ok <;> simp [analyzeServe, hres, hres', hj2]

theorem c10_witness :
    (analyzeServe ⟨none, some ["a", "b"]⟩ true []).modelCalled =
        some (joinSep "\n\n".toList (["a", "b"].map String.toList)) ∧
      (analyzeServe ⟨none, none⟩ true []).status = 400 ∧
      (analyzeServe ⟨none, none⟩ true []).modelCalled = none ∧
      (analyzeServe ⟨none, none⟩ true []).errorMsg = some "No content provided" :=
  c10_content_resolution ⟨none, some ["a", "b"]⟩ ⟨none, none⟩ ["a", "b"] true true [] []
    (.inl rfl) rfl (by decide) (.inl rfl) rfl

/-! ## process-documents job lifecycle -/

/-- C4 (code bug).  The claim states the spec's evident intent — the
source's `catch` block contains exactly the `failed`-plus-message
update — but that update is unreachable: the `catch` first evaluates
`req.clone()` on the body already consumed by `req.json()`, which
throws a `TypeError` before the inner `.catch` applies.  At the failing
input (an existing job record and an extraction-stage exception) the run
leaves the record in status `running`, progress frozen at its last
checkpoint 50 and no error message captured, although a throw-free run
still ends `completed` at 100 with the non-decreasing write sequence. -/
theorem c4_stuck_in_running :
    runPipeline (fun k => k.val == 2) ⟨.pending, 0, none⟩ =
      (⟨.running, 50, none⟩, [10, 30, 50]) ∧
    runPipeline (fun _ => false) ⟨.pending, 0, none⟩ =
      (⟨.completed, 100, none⟩, [10, 30, 50, 70, 90, 100]) ∧
    List.Chain' (· ≤ ·) (runPipeline (fun k => k.val == 2) ⟨.pending, 0, none⟩).2 := by
  refine ⟨by decide, by decide, ?_⟩
  show List.Chain' (· ≤ ·) [10, 30, 50]
  norm_num [List.chain'_cons]

/-! ## Enhanced pipeline: embedding failure -/

/-- C5 counterexample. When only the embedding call fails, the enhanced
pipeline still returns HTTP 200 (not a non-2xx response) and, when the
Qdrant upsert succeeds, the vector step is reported `completed`, not
`error`. -/
theorem c5_counterexample :
    (serveEnhanced ⟨true, emptyExtracted, false, [], true, true⟩ "doc").status = 200 ∧
      stepStatus (serveEnhanced ⟨true, emptyExtracted, false, [], true, true⟩ "doc") "vector" =
        some StepState.completed := by decide

/-- C5 (amended). If the embedding call fails, the embedding stage
returns an empty array and the response's embeddings preview is empty;
the vector step is `error` exactly when the storage call reports
failure; and the pipeline still returns a structured 200 response rather
than crashing or returning non-2xx. -/
theorem c5_embed_failure (env : EnhEnv) (content : String)
    (hc : content.toList ≠ []) (hai : env.aiOk = true) (hembed : env.embedOk = false) :
    generateEmbeddingsForChunks env (chunkText content.toList 500) = [] ∧
      (serveEnhanced env content).status = 200 ∧
      (serveEnhanced env content).embeddings = [] ∧
      (stepStatus (serveEnhanced env content) "vector" = some StepState.error ↔
        storeChunksInVectorDB env (chunkText content.toList 500) [] = false) := by
  obtain ⟨aiOk, aiE, eOk, eV, cOk, uOk⟩ := env
  cases hai
  cases hembed
  have hc' : ¬(content.data = []) := by simpa using hc
  refine ⟨rfl, ?_, ?_, ?_⟩
  · simp [serveEnhanced, hc']
  · simp [serveEnhanced, hc', generateEmbeddingsForChunks]
  · cases cOk <;> cases uOk <;>
      simp [serveEnhanced, hc', stepStatus, storeChunksInVectorDB, ensureQdrantCollection,
        generateEmbeddingsForChunks, List.find?]

theorem c5_witness :
    generateEmbeddingsForChunks ⟨true, emptyExtracted, false, [], false, true⟩
        (chunkText "doc".toList 500) = [] ∧
      (serveEnhanced ⟨true, emptyExtracted, false, [], false, true⟩ "doc").status = 200 ∧
      (serveEnhanced ⟨true, emptyExtracted, false, [], false, true⟩ "doc").embeddings = [] ∧
      (stepStatus (serveEnhanced ⟨true, emptyExtracted, false, [], false, true⟩ "doc") "vector" =
          some StepState.error ↔
        storeChunksInVectorDB ⟨true, emptyExtracted, false, [], false, true⟩
          (chunkText "doc".toList 500) [] = false) :=
  c5_embed_failure ⟨true, emptyExtracted, false, [], false, true⟩ "doc" (by decide) rfl rfl

/-! ## Extraction-response parse policy -/

/-- The input exhibiting the difference between the source's greedy
brace salvage and the specified first-balanced salvage: two JSON objects
separated by non-JSON text. -/
def c6cex : List Char :=
  "note ".toList ++ objTxt "\"summary\":\"ok\"" ++ " mid ".toList ++
    objTxt "\"x\":1" ++ " end".toList

/-- C6 counterexample. On this output the source parser salvages the
substring from the first brace to the *last* brace, which does not
parse, so it falls through to the empty/fallback result; the specified
first-*balanced* salvage parses the first object and succeeds. -/
theorem c6_counterexample :
    performAIAnalysisParse c6cex = (.jobj [], .jstr failedParseMsg) ∧
      specAIAnalysisParse c6cex =
        (.jobj [(summaryKey, .jstr "ok".toList)], .jstr "ok".toList) :=
  ⟨rfl, rfl⟩

/-- C6 (amended). All three extraction-response parsers first attempt a
direct JSON parse.  `performAIAnalysis` falls into its salvage path both
on parse failure and when the direct parse yields JSON `null` (whose
property access throws inside the `try`); the salvage takes the
substring from the first `\x7b` to the last `\x7d` (not the first
balanced substring) and returns an empty extraction and a fallback
summary when that also fails.  The analyze-docs handler keeps any
successfully parsed value and uses the same greedy salvage on failure;
`extractStructuredData` performs no salvage at all and returns a fixed
non-empty fallback record.  All paths return a value (no exception
escapes the orchestrators). -/
theorem c6_parse_policy (s today : List Char) :
    (∀ p, jsonParse s = some p → p ≠ JVal.jnull →
      performAIAnalysisParse s =
        (jGetOr p extractedKey (.jobj []), jGetOr p summaryKey (.jstr noSummaryMsg))) ∧
    (∀ p, jsonParse s = some p →
      analyzeDocsParse s = p ∧ extractStructuredDataParse today s = p) ∧
    (jsonParse s = some JVal.jnull → performAIAnalysisParse s = performAISalvage s) ∧
    (jsonParse s = none →
      performAIAnalysisParse s = performAISalvage s ∧
      analyzeDocsParse s = analyzeDocsSalvage s ∧
      extractStructuredDataParse today s = fallbackExtracted today) ∧
    (greedyBrace s = none →
      performAISalvage s = (.jobj [], .jstr noResultsMsg) ∧
      analyzeDocsSalvage s = .jobj []) ∧
    (∀ sub, greedyBrace s = some sub → jsonParse sub = none →
      performAISalvage s = (.jobj [], .jstr failedParseMsg) ∧
      analyzeDocsSalvage s = .jobj []) ∧
    (∀ sub p, greedyBrace s = some sub → jsonParse sub = some p →
      performAISalvage s =
        (jGetOr p extractedKey p, jGetOr p summaryKey (.jstr processedMsg)) ∧
      analyzeDocsSalvage s = p) := by
  refine ⟨?_, ?_, ?_, ?_, ?_, ?_, ?_⟩
  · intro p hp hnull
    cases p <;> first
      | exact absurd rfl hnull
      | simp [performAIAnalysisParse, hp]
  · intro p hp
    exact ⟨by simp [analyzeDocsParse, hp], by simp [extractStructuredDataParse, hp]⟩
  · intro hp
    simp [performAIAnalysisParse, hp]
  · intro hp
    exact ⟨by simp [performAIAnalysisParse, hp], by simp [analyzeDocsParse, hp],
      by simp [extractStructuredDataParse, hp]⟩
  · intro hg
    exact ⟨by simp [performAISalvage, hg], by simp [analyzeDocsSalvage, hg]⟩
  · intro sub hg hps
    exact ⟨by simp [performAISalvage, hg, hps], by simp [analyzeDocsSalvage, hg, hps]⟩
  · intro sub p hg hps
    exact ⟨by simp [performAISalvage, hg, hps], by simp [analyzeDocsSalvage, hg, hps]⟩

theorem c6_witness :
    performAIAnalysisParse "null".toList = (.jobj [], .jstr noResultsMsg) ∧
      extractStructuredDataParse [] "x".toList = fallbackExtracted [] := by
  have h1 := c6_parse_policy "null".toList []
  have h2 := c6_parse_policy "x".toList []
  exact ⟨(h1.2.2.1 rfl).trans (h1.2.2.2.2.1 rfl).1, (h2.2.2.2.1 rfl).2.2⟩

/-! ## Chunker infrastructure: split, trim and join lemmas -/

theorem splitCh_ne_nil (p : Char → Bool) (l : List Char) : splitCh p l ≠ [] := by
  induction l with
  | nil => simp [splitCh]
  | cons c cs ih =>
    simp only [splitCh]
    split
    · simp
    · cases h : splitCh p cs with
      | nil => simp
      | cons s ss => simp [h]

theorem mem_splitCh_not (p : Char → Bool) (l : List Char) :
    ∀ s ∈ splitCh p l, ∀ c ∈ s, p c = false := by
  induction l with
  | nil =>
    intro s hs c hc
    simp [splitCh] at hs
    subst hs
    simp at hc
  | cons a as ih =>
    intro s hs c hc
    simp only [splitCh] at hs
    by_cases hp : p a = true
    · rw [if_pos hp] at hs
      rcases List.mem_cons.mp hs with rfl | hs
      · simp at hc
      · exact ih s hs c hc
    · rw [if_neg hp] at hs
      cases h : splitCh p as with
      | nil => exact absurd h (splitCh_ne_nil p as)
      | cons t ts =>
        rw [h] at hs
        rcases List.mem_cons.mp hs with rfl | hs
        · rcases List.mem_cons.mp hc with rfl | hc
          · exact Bool.eq_false_iff.mpr hp
          · exact ih t (h ▸ List.mem_cons_self t ts) c hc
        · exact ih s (h ▸ List.mem_cons_of_mem t hs) c hc

theorem splitCh_append_notp (p : Char → Bool) (a l : List Char)
    (ha : ∀ c ∈ a, p c = false) :
    splitCh p (a ++ l) = (splitCh p l).modifyHead (a ++ ·) := by
  induction a with
  | nil => cases h : splitCh p l <;> simp [List.modifyHead, h]
  | cons c a ih =>
    have hc : p c = false := ha c (List.mem_cons_self c a)
    have ha' : ∀ x ∈ a, p x = false := fun x hx => ha x (List.mem_cons_of_mem c hx)
    simp only [List.cons_append, splitCh, hc, List.append_eq]
    rw [if_neg (by simp), ih ha']
    cases h : splitCh p l with
    | nil => exact absurd h (splitCh_ne_nil p l)
    | cons s ss => simp [List.modifyHead, h]

theorem splitCh_all_notp (p : Char → Bool) (l : List Char) (h : ∀ c ∈ l, p c = false) :
    splitCh p l = [l] := by
  have h2 := splitCh_append_notp p l [] h
  simpa [splitCh, List.modifyHead] using h2

theorem trimLeft_def (l : List Char) : trimLeft l = l.dropWhile isWS := rfl

theorem trimRight_def (l : List Char) : trimRight l = l.rdropWhile isWS := rfl

theorem trim_length_le (l : List Char) : (trim l).length ≤ l.length := by
  have h1 : (trimLeft l).length ≤ l.length := (List.dropWhile_suffix isWS).length_le
  have h2 : (trim l).length ≤ (trimLeft l).length :=
    (List.rdropWhile_prefix isWS (trimLeft l)).length_le
  omega

theorem mem_trim {c : Char} {l : List Char} (h : c ∈ trim l) : c ∈ l :=
  (List.dropWhile_suffix isWS).subset ((List.rdropWhile_prefix isWS (trimLeft l)).subset h)

theorem trim_parts {l : List Char} (h : trim l = l) :
    trimLeft l = l ∧ trimRight l = l := by
  have h1 : (trimLeft l).length ≤ l.length := (List.dropWhile_suffix isWS).length_le
  have h2 : (trim l).length ≤ (trimLeft l).length :=
    (List.rdropWhile_prefix isWS (trimLeft l)).length_le
  have hlen : (trimLeft l).length = l.length := by
    rw [h] at h2
    omega
  have hL : trimLeft l = l := (List.dropWhile_suffix isWS).eq_of_length hlen
  refine ⟨hL, ?_⟩
  unfold trim at h
  rwa [hL] at h

theorem dropWhile_append_all {p : Char → Bool} {a l : List Char}
    (h : ∀ c ∈ a, p c = true) : List.dropWhile p (a ++ l) = List.dropWhile p l := by
  induction a with
  | nil => simp
  | cons c a ih =>
    have hc := h c (List.mem_cons_self c a)
    simp [List.dropWhile_cons, hc, ih fun x hx => h x (List.mem_cons_of_mem c hx)]

theorem trim_ws_prefix (a : List Char) (ha : ∀ c ∈ a, isWS c = true) (s : List Char) :
    trim (a ++ s) = trim s := by
  unfold trim trimLeft
  rw [dropWhile_append_all ha]

/-- A prefix of a list with no leading `p`-element also has none. -/
theorem dropWhile_eq_self_of_prefix {p : Char → Bool} {x y : List Char} (hxy : x <+: y)
    (hy : List.dropWhile p y = y) : List.dropWhile p x = x := by
  cases x with
  | nil => simp
  | cons c cs =>
    cases y with
    | nil =>
      obtain ⟨t, ht⟩ := hxy
      cases ht
    | cons d ds =>
      obtain ⟨t, ht⟩ := hxy
      injection ht with h1 h2
      subst h1
      have hc : p c = false := by
        by_contra hpc
        rw [Bool.not_eq_false] at hpc
        rw [List.dropWhile_cons, if_pos hpc] at hy
        have hle := (List.dropWhile_suffix p : ds.dropWhile p <:+ ds).length_le
        rw [hy] at hle
        simp at hle
      rw [List.dropWhile_cons, if_neg (by simp [hc])]

theorem trim_idem (l : List Char) : trim (trim l) = trim l := by
  have ha : List.dropWhile isWS (trimLeft l) = trimLeft l := by
    simp only [trimLeft_def]
    exact List.dropWhile_idempotent isWS l
  have hb : trimLeft (trimRight (trimLeft l)) = trimRight (trimLeft l) :=
    dropWhile_eq_self_of_prefix
      (by rw [trimRight_def]; exact List.rdropWhile_prefix isWS (trimLeft l)) ha
  show trimRight (trimLeft (trimRight (trimLeft l))) = trimRight (trimLeft l)
  rw [hb]
  simp only [trimRight_def]
  exact List.rdropWhile_idempotent isWS (trimLeft l)

/-- A chunk building block: nonempty, trimmed, terminator-free. -/
def goodSent (t : List Char) : Prop :=
  t ≠ [] ∧ trim t = t ∧ ∀ c ∈ t, isTermCh c = false

theorem goodSent_trim {s : List Char} (h1 : trim s ≠ [])
    (h2 : ∀ c ∈ s, isTermCh c = false) : goodSent (trim s) :=
  ⟨h1, trim_idem s, fun c hc => h2 c (mem_trim hc)⟩

theorem sentencesRaw_spec (text : List Char) :
    ∀ s ∈ sentencesRaw text, (∀ c ∈ s, isTermCh c = false) ∧ trim s ≠ [] := by
  intro s hs
  unfold sentencesRaw at hs
  rw [List.mem_filter] at hs
  refine ⟨mem_splitCh_not _ _ s hs.1, ?_⟩
  have hb : (trim s).isEmpty = false := by simpa using hs.2
  intro heq
  rw [heq] at hb
  simp at hb

theorem goodSent_sentencesOf (text : List Char) : ∀ t ∈ sentencesOf text, goodSent t := by
  intro t ht
  unfold sentencesOf at ht
  rw [List.mem_map] at ht
  obtain ⟨s, hs, rfl⟩ := ht
  obtain ⟨h2, h1⟩ := sentencesRaw_spec text s hs
  exact goodSent_trim h1 h2

theorem joinSep_ne_nil_of {sep : List Char} {g : List (List Char)} (hg : g ≠ [])
    (h1 : ∀ t ∈ g, t ≠ []) : joinSep sep g ≠ [] := by
  cases g with
  | nil => exact absurd rfl hg
  | cons t ts =>
    cases ts with
    | nil => simpa [joinSep] using h1 t (by simp)
    | cons u us =>
      have := h1 t (List.mem_cons_self _ _)
      simp [joinSep, List.append_eq_nil, this]

theorem joinSep_append (sep : List Char) (xs ys : List (List Char)) (hx : xs ≠ [])
    (hy : ys ≠ []) :
    joinSep sep (xs ++ ys) = joinSep sep xs ++ sep ++ joinSep sep ys := by
  induction xs with
  | nil => exact absurd rfl hx
  | cons t ts ih =>
    cases ts with
    | nil =>
      cases ys with
      | nil => exact absurd rfl hy
      | cons u us => simp [joinSep]
    | cons r rs =>
      have ih' := ih (by simp)
      simp only [List.cons_append] at ih' ⊢
      simp only [joinSep, ih', List.append_assoc]

theorem joinSep_map_flatten (sep : List Char) (groups : List (List (List Char)))
    (h : ∀ g ∈ groups, g ≠ []) :
    joinSep sep (groups.map (joinSep sep)) = joinSep sep groups.flatten := by
  induction groups with
  | nil => simp [joinSep]
  | cons g gs ih =>
    cases gs with
    | nil => simp [joinSep]
    | cons g' gs' =>
      have hg : g ≠ [] := h g (by simp)
      have hg' : g' ≠ [] := h g' (by simp)
      have hgs : g' ++ gs'.flatten ≠ [] := fun hj => hg' (List.append_eq_nil.mp hj).1
      have ih' := ih fun x hx => h x (List.mem_cons_of_mem _ hx)
      simp only [List.map_cons, List.flatten_cons] at ih' ⊢
      rw [joinSep_append sep g (g' ++ gs'.flatten) hg hgs, ← ih']
      simp [joinSep]

theorem splitCh_cons_p {p : Char → Bool} {c : Char} {l : List Char} (h : p c = true) :
    splitCh p (c :: l) = [] :: splitCh p l := by
  simp [splitCh, h]

theorem splitCh_cons_notp {p : Char → Bool} {c : Char} {l : List Char} (h : p c = false) :
    splitCh p (c :: l) = (splitCh p l).modifyHead (c :: ·) := by
  have h2 := splitCh_append_notp p [c] l (by simpa using h)
  simpa using h2

theorem trimLeft_append_of_clean {t z : List Char} (ht : trimLeft t = t) (hne : t ≠ []) :
    trimLeft (t ++ z) = t ++ z := by
  cases t with
  | nil => exact absurd rfl hne
  | cons c cs =>
    have hc : isWS c = false := by
      by_contra hpc
      rw [Bool.not_eq_false] at hpc
      rw [trimLeft_def, List.dropWhile_cons, if_pos hpc] at ht
      have hle := (List.dropWhile_suffix isWS : cs.dropWhile isWS <:+ cs).length_le
      rw [ht] at hle
      simp at hle
    rw [trimLeft_def, List.cons_append, List.dropWhile_cons, if_neg (by simp [hc])]

theorem trimRight_append_of_clean {z t : List Char} (ht : trimRight t = t) (hne : t ≠ []) :
    trimRight (z ++ t) = z ++ t := by
  have ht' : trimLeft t.reverse = t.reverse := by
    rw [trimLeft_def]
    have h2 : (t.reverse.dropWhile isWS).reverse = t := ht
    calc t.reverse.dropWhile isWS = ((t.reverse.dropWhile isWS).reverse).reverse := by
          rw [List.reverse_reverse]
      _ = t.reverse := by rw [h2]
  have hne' : t.reverse ≠ [] := by simpa using hne
  have h : trimLeft (t.reverse ++ z.reverse) = t.reverse ++ z.reverse :=
    trimLeft_append_of_clean ht' hne'
  rw [trimLeft_def] at h
  unfold trimRight
  rw [List.reverse_append, h, List.reverse_append, List.reverse_reverse,
    List.reverse_reverse]

theorem trimLeft_joinSep_good (g : List (List Char)) (hg : g ≠ [])
    (h : ∀ t ∈ g, goodSent t) : trimLeft (joinSep dotSpace g) = joinSep dotSpace g := by
  cases g with
  | nil => exact absurd rfl hg
  | cons t ts =>
    obtain ⟨hne, htr, _⟩ := h t (List.mem_cons_self _ _)
    obtain ⟨hL, _⟩ := trim_parts htr
    cases ts with
    | nil => exact hL
    | cons u us =>
      have hj : joinSep dotSpace (t :: u :: us) =
          t ++ (dotSpace ++ joinSep dotSpace (u :: us)) := by
        simp [joinSep, List.append_assoc]
      rw [hj]
      exact trimLeft_append_of_clean hL hne

theorem trimRight_joinSep_good (g : List (List Char)) (hg : g ≠ [])
    (h : ∀ t ∈ g, goodSent t) : trimRight (joinSep dotSpace g) = joinSep dotSpace g := by
  rcases List.eq_nil_or_concat g with rfl | ⟨init, tlast, hconcat⟩
  · exact absurd rfl hg
  · rw [List.concat_eq_append] at hconcat
    subst hconcat
    obtain ⟨hne, htr, _⟩ := h tlast (by simp)
    obtain ⟨_, hR⟩ := trim_parts htr
    cases init with
    | nil => exact hR
    | cons i is =>
      have hj : joinSep dotSpace ((i :: is) ++ [tlast]) =
          (joinSep dotSpace (i :: is) ++ dotSpace) ++ tlast := by
        rw [joinSep_append dotSpace (i :: is) [tlast] (by simp) (by simp)]
        rfl
      rw [hj]
      exact trimRight_append_of_clean hR hne

theorem trim_joinSep_good (g : List (List Char)) (hg : g ≠ [])
    (h : ∀ t ∈ g, goodSent t) : trim (joinSep dotSpace g) = joinSep dotSpace g := by
  unfold trim
  rw [trimLeft_joinSep_good g hg h, trimRight_joinSep_good g hg h]

/-- The common tail of `sentencesOf`: nonblank-filter then trim. -/
def procSents (L : List (List Char)) : List (List Char) :=
  (L.filter (fun s => !(trim s).isEmpty)).map trim

theorem sentencesOf_eq (text : List Char) :
    sentencesOf text = procSents (splitCh isTermCh text) := rfl

theorem procSents_cons (s : List Char) (L : List (List Char)) :
    procSents (s :: L) =
      if (trim s).isEmpty then procSents L else trim s :: procSents L := by
  by_cases h : (trim s).isEmpty = true <;> simp [procSents, List.filter_cons, h]

theorem procSents_modifyHead_ws (a : List Char) (ha : ∀ c ∈ a, isWS c = true)
    (L : List (List Char)) (hL : L ≠ []) :
    procSents (L.modifyHead (a ++ ·)) = procSents L := by
  cases L with
  | nil => exact absurd rfl hL
  | cons s ss =>
    have ht : trim (a ++ s) = trim s := trim_ws_prefix a ha s
    simp only [List.modifyHead]
    rw [procSents_cons, procSents_cons, ht]

/-- Round trip: re-splitting the sentence-joined concatenation of good
sentences recovers exactly those sentences. -/
theorem procSents_joinSep (ts : List (List Char)) (h : ∀ t ∈ ts, goodSent t) :
    procSents (splitCh isTermCh (joinSep dotSpace ts)) = ts := by
  induction ts with
  | nil => decide
  | cons t ts ih =>
    obtain ⟨htne, htrim, hterm⟩ := h t (List.mem_cons_self _ _)
    cases ts with
    | nil =>
      show procSents (splitCh isTermCh (joinSep dotSpace [t])) = [t]
      rw [show joinSep dotSpace [t] = t from rfl, splitCh_all_notp _ _ hterm,
        procSents_cons, htrim, if_neg (by simpa [List.isEmpty_iff] using htne)]
      rfl
    | cons u us =>
      have hrest : ∀ x ∈ u :: us, goodSent x := fun x hx => h x (List.mem_cons_of_mem _ hx)
      have hjoin : joinSep dotSpace (t :: u :: us) =
          t ++ ('.' :: ' ' :: joinSep dotSpace (u :: us)) := by
        simp [joinSep, dotSpace]
      rw [hjoin, splitCh_append_notp _ _ _ hterm, splitCh_cons_p (by decide),
        splitCh_cons_notp (by decide)]
      simp only [List.modifyHead, List.append_nil]
      rw [procSents_cons, htrim, if_neg (by simpa [List.isEmpty_iff] using htne)]
      have hm : procSents (List.modifyHead (fun x => ' ' :: x)
            (splitCh isTermCh (joinSep dotSpace (u :: us)))) =
          procSents (splitCh isTermCh (joinSep dotSpace (u :: us))) :=
        procSents_modifyHead_ws [' '] (by decide) _ (splitCh_ne_nil _ _)
      congr 1
      show procSents (List.modifyHead (fun x => ' ' :: x)
          (splitCh isTermCh (joinSep dotSpace (u :: us)))) = u :: us
      rw [hm, ih hrest]

/-- The chunk loop groups the trimmed sentences: starting from a buffer
holding the sentence-join of a good group `g`, the produced chunks are
exactly the sentence-joins of a partition of `g` followed by the
remaining trimmed sentences, with every group non-empty and good. -/
theorem chunkAux_groups (max : Nat) :
    ∀ (rest : List (List Char)),
      (∀ s ∈ rest, (∀ c ∈ s, isTermCh c = false) ∧ trim s ≠ []) →
      ∀ (g : List (List Char)), (∀ t ∈ g, goodSent t) →
      ∃ groups : List (List (List Char)),
        chunkAux max rest (joinSep dotSpace g) = groups.map (joinSep dotSpace) ∧
        groups.flatten = g ++ rest.map trim ∧
        ∀ g' ∈ groups, g' ≠ [] ∧ ∀ t ∈ g', goodSent t := by
  intro rest
  induction rest with
  | nil =>
    intro _ g hg
    by_cases hgn : g = []
    · subst hgn
      exact ⟨[], by simp [chunkAux, joinSep], by simp, by simp⟩
    · have hne : joinSep dotSpace g ≠ [] :=
        joinSep_ne_nil_of hgn fun t ht => (hg t ht).1
      refine ⟨[g], ?_, by simp, ?_⟩
      · have hemp : (joinSep dotSpace g).isEmpty = false :=
          Bool.eq_false_iff.mpr fun h => hne (List.isEmpty_iff.mp h)
        simp [chunkAux, hemp, trim_joinSep_good g hgn hg]
      · intro g' hg'
        simp at hg'
        subst hg'
        exact ⟨hgn, hg⟩
  | cons s rest ih =>
    intro hrest g hg
    obtain ⟨hsterm, hstrim⟩ := hrest s (List.mem_cons_self _ _)
    have hrest' : ∀ x ∈ rest, (∀ c ∈ x, isTermCh c = false) ∧ trim x ≠ [] :=
      fun x hx => hrest x (List.mem_cons_of_mem _ hx)
    have hgood : goodSent (trim s) := goodSent_trim hstrim hsterm
    have hsingle : ∀ t ∈ [trim s], goodSent t := by
      intro t ht
      simp at ht
      subst ht
      exact hgood
    by_cases hcond :
        (max < (joinSep dotSpace g ++ s).length && !(joinSep dotSpace g).isEmpty) = true
    · have hgn : g ≠ [] := by
        intro h
        subst h
        simp [joinSep] at hcond
      have htrimcc : trim (joinSep dotSpace g) = joinSep dotSpace g :=
        trim_joinSep_good g hgn hg
      obtain ⟨groups, heq, hjoin, hglast⟩ := ih hrest' [trim s] hsingle
      have heq' : chunkAux max rest (trim s) = groups.map (joinSep dotSpace) := heq
      refine ⟨g :: groups, ?_, ?_, ?_⟩
      · simp only [chunkAux]
        rw [if_pos hcond, htrimcc, heq']
        simp
      · simp only [List.flatten_cons, hjoin, List.map_cons]
        simp
      · intro g' hgmem
        rcases List.mem_cons.mp hgmem with rfl | hgmem
        · exact ⟨hgn, hg⟩
        · exact hglast g' hgmem
    · by_cases hgn : g = []
      · subst hgn
        obtain ⟨groups, heq, hjoin, hglast⟩ := ih hrest' [trim s] hsingle
        refine ⟨groups, ?_, ?_, hglast⟩
        · simp only [chunkAux]
          rw [if_neg hcond]
          exact heq
        · rw [hjoin]
          simp
      · have hne : joinSep dotSpace g ≠ [] :=
          joinSep_ne_nil_of hgn fun t ht => (hg t ht).1
        have hemp : (joinSep dotSpace g).isEmpty = false :=
          Bool.eq_false_iff.mpr fun h => hne (List.isEmpty_iff.mp h)
        have hg' : ∀ t ∈ g ++ [trim s], goodSent t := by
          intro t ht
          rcases List.mem_append.mp ht with h | h
          · exact hg t h
          · simp at h
            subst h
            exact hgood
        obtain ⟨groups, heq, hjoin, hglast⟩ := ih hrest' (g ++ [trim s]) hg'
        refine ⟨groups, ?_, ?_, hglast⟩
        · simp only [chunkAux]
          rw [if_neg hcond]
          have hj : joinSep dotSpace g ++
              (if (joinSep dotSpace g).isEmpty then [] else dotSpace) ++ trim s =
              joinSep dotSpace (g ++ [trim s]) := by
            rw [hemp]
            simp only [Bool.false_eq_true, if_false]
            rw [joinSep_append dotSpace g [trim s] hgn (by simp)]
            rfl
          rw [hj]
          exact heq
        · rw [hjoin]
          simp [List.append_assoc]

/-- Size invariant of the chunk loop: every produced chunk is within
`max + 2` of the limit or satisfies the escape predicate `Q` (which will
be "is a single trimmed sentence"). -/
theorem chunkAux_size (max : Nat) (Q : List Char → Prop) :
    ∀ (rest : List (List Char)), (∀ s ∈ rest, Q (trim s)) →
      ∀ cc, (cc = [] ∨ cc.length ≤ max + 2 ∨ (Q cc ∧ trim cc = cc)) →
      ∀ ch ∈ chunkAux max rest cc, ch.length ≤ max + 2 ∨ Q ch := by
  intro rest
  induction rest with
  | nil =>
    intro _ cc hcc ch hch
    by_cases hemp : cc.isEmpty = true
    · simp [chunkAux, hemp] at hch
    · simp [chunkAux, hemp] at hch
      subst hch
      rcases hcc with rfl | h | ⟨hq, ht⟩
      · simp at hemp
      · exact .inl (le_trans (trim_length_le cc) h)
      · right
        rw [ht]
        exact hq
  | cons s rest ih =>
    intro hrest cc hcc ch hch
    have hqs : Q (trim s) := hrest s (List.mem_cons_self _ _)
    have hrest' : ∀ x ∈ rest, Q (trim x) := fun x hx => hrest x (List.mem_cons_of_mem _ hx)
    by_cases hcond : (max < (cc ++ s).length && !cc.isEmpty) = true
    · simp only [chunkAux] at hch
      rw [if_pos hcond] at hch
      rcases List.mem_cons.mp hch with rfl | hch
      · rcases hcc with rfl | h | ⟨hq, ht⟩
        · simp at hcond
        · exact .inl (le_trans (trim_length_le cc) h)
        · right
          rw [ht]
          exact hq
      · exact ih hrest' (trim s) (.inr (.inr ⟨hqs, trim_idem s⟩)) ch hch
    · simp only [chunkAux] at hch
      rw [if_neg hcond] at hch
      by_cases hemp : cc.isEmpty = true
      · have hcc' : cc = [] := List.isEmpty_iff.mp hemp
        subst hcc'
        refine ih hrest' _ (.inr (.inr ?_)) ch hch
        constructor
        · show Q ([] ++ (if ([] : List Char).isEmpty then [] else dotSpace) ++ trim s)
          simpa using hqs
        · show trim ([] ++ (if ([] : List Char).isEmpty then [] else dotSpace) ++ trim s) = _
          simp [trim_idem]
      · have hb : cc.isEmpty = false := Bool.eq_false_iff.mpr hemp
        have hlen : (cc ++ s).length ≤ max := by
          by_contra hlt
          push_neg at hlt
          apply hcond
          simp [hb]
          simpa [List.length_append] using hlt
        have h1 : cc.length + s.length ≤ max := by
          simpa [List.length_append] using hlen
        have h2 : (trim s).length ≤ s.length := trim_length_le s
        have hcc2 : (cc ++ (if cc.isEmpty then [] else dotSpace) ++ trim s).length ≤
            max + 2 := by
          rw [hb]
          simp only [Bool.false_eq_true, if_false]
          simp only [List.length_append, dotSpace, List.length_cons, List.length_nil]
          omega
        exact ih hrest' _ (.inr (.inl hcc2)) ch hch

/-- No loss before the minimum-length filter: re-splitting the
sentence-joined concatenation of the assembled chunks recovers exactly
the input's trimmed sentences. -/
theorem chunkRaw_reproduces (text : List Char) (max : Nat) :
    sentencesOf (joinSep dotSpace (chunkRaw text max)) = sentencesOf text := by
  obtain ⟨groups, heq, hjoin, hgood⟩ :=
    chunkAux_groups max (sentencesRaw text) (sentencesRaw_spec text) [] (by simp)
  have heq' : chunkRaw text max = groups.map (joinSep dotSpace) := heq
  have hjoin' : groups.flatten = sentencesOf text := by
    simpa [sentencesOf] using hjoin
  rw [heq', joinSep_map_flatten dotSpace groups fun g hg => (hgood g hg).1, hjoin',
    sentencesOf_eq]
  exact procSents_joinSep (sentencesOf text) (goodSent_sentencesOf text)

/-- C1 counterexample.  With max-chunk-size 21, the input
`"aaaaaaaaaa.bbbbbbbbbbb.hi."` produces a chunk of 23 characters (the
`'. '` separator is not counted by the size check) although no sentence
exceeds 21, and the final sentence `"hi"` is lost to the 20-character
minimum filter. -/
theorem c1_counterexample :
    (∃ ch ∈ chunkText "aaaaaaaaaa.bbbbbbbbbbb.hi.".toList 21, 21 < ch.length) ∧
      (∀ s ∈ sentencesRaw "aaaaaaaaaa.bbbbbbbbbbb.hi.".toList, s.length ≤ 21) ∧
      sentencesOf (joinSep dotSpace (chunkText "aaaaaaaaaa.bbbbbbbbbbb.hi.".toList 21)) ≠
        sentencesOf "aaaaaaaaaa.bbbbbbbbbbb.hi.".toList := by decide

/-- C1 (amended).  The sentence-joined concatenation of the *assembled*
chunks (before the 20-character minimum filter) reproduces all of the
input's trimmed sentences with no loss; and every emitted chunk either
has length at most max-chunk-size + 2 (the `'. '` separator is not
counted by the size check) or is a single trimmed sentence, which alone
may exceed the size. -/
theorem c1_chunker_amended (text : List Char) (max : Nat) :
    sentencesOf (joinSep dotSpace (chunkRaw text max)) = sentencesOf text ∧
      ∀ ch ∈ chunkText text max,
        ch.length ≤ max + 2 ∨ ∃ s ∈ sentencesRaw text, ch = trim s := by
  refine ⟨chunkRaw_reproduces text max, ?_⟩
  intro ch hch
  have hsub : ch ∈ chunkRaw text max := (List.mem_filter.mp hch).1
  exact chunkAux_size max (fun x => ∃ s ∈ sentencesRaw text, x = trim s)
    (sentencesRaw text) (fun s hs => ⟨s, hs, rfl⟩) [] (.inl rfl) ch hsub

theorem c1_witness :
    sentencesOf (joinSep dotSpace (chunkRaw "aaaaaaaaaa.bbbbbbbbbbb.hi.".toList 21)) =
        sentencesOf "aaaaaaaaaa.bbbbbbbbbbb.hi.".toList ∧
      (("aaaaaaaaaa. bbbbbbbbbbb".toList).length ≤ 21 + 2 ∨
        ∃ s ∈ sentencesRaw "aaaaaaaaaa.bbbbbbbbbbb.hi.".toList,
          "aaaaaaaaaa. bbbbbbbbbbb".toList = trim s) :=
  ⟨(c1_chunker_amended "aaaaaaaaaa.bbbbbbbbbbb.hi.".toList 21).1,
    (c1_chunker_amended "aaaaaaaaaa.bbbbbbbbbbb.hi.".toList 21).2
      "aaaaaaaaaa. bbbbbbbbbbb".toList (by decide)⟩

end Inspect
